import Mathlib

/-!
Verification of utils/util.py (Stronger-yolo-pytorch).

Shallow embedding conventions:
* Box coordinates and pixel-arithmetic quantities are rationals (the Python
  code works on float tensors; we model the arithmetic exactly).
* Division on the rationals follows the Lean convention q / 0 = 0; where the
  Python float code would produce NaN (0.0/0.0) the model produces 0, and this
  is noted at the theorems concerned.
* Python int(x) truncates toward zero; it is modelled by pyInt below.
* Tensors of rank 2 are lists of rows (List (List Rat)); a tensor created by
  bboxes1.new(r, c) with r * c = 0 holds no elements, so modelling it as a
  replicate of zero-filled rows is exact (there is never an observable
  uninitialised value).
-/

namespace YoloUtil

/-- A bounding box row <x1, y1, x2, y2>, as one row of the (m, 4) float
tensors taken by bbox_overlaps. -/
structure Box where
  x1 : ℚ
  y1 : ℚ
  x2 : ℚ
  y2 : ℚ
deriving DecidableEq, Repr

/-- The area term (b[2] - b[0] + 1) * (b[3] - b[1] + 1) used for both area1
and area2 in bbox_overlaps (the inclusive-pixel convention). -/
def area (b : Box) : ℚ :=
  (b.x2 - b.x1 + 1) * (b.y2 - b.y1 + 1)

/-- The clamped intersection term of bbox_overlaps for one pair of boxes:
lt = max of top-left corners, rb = min of bottom-right corners,
wh = (rb - lt + 1).clamp(min=0), overlap = wh[0] * wh[1]. -/
def pairOverlap (a b : Box) : ℚ :=
  max 0 (min a.x2 b.x2 - max a.x1 b.x1 + 1) *
    max 0 (min a.y2 b.y2 - max a.y1 b.y1 + 1)

/-- One entry of the bbox_overlaps output: overlap / (area1 + area2 - overlap)
in mode "iou", overlap / area1 otherwise (mode "iof"). -/
def pairScore (mode : String) (a b : Box) : ℚ :=
  if mode = "iou" then pairOverlap a b / (area a + area b - pairOverlap a b)
  else pairOverlap a b / area a

/-- bbox_overlaps from utils/util.py. The two asserts become error results;
the early return on rows * cols == 0 keeps the code's shapes ((rows, 1) when
aligned, (rows, cols) otherwise); the aligned branch pairs the sets
positionally and produces one column; the unaligned branch is the full
cross product. -/
def bbox_overlaps (bboxes1 bboxes2 : List Box) (mode : String)
    (is_aligned : Bool) : Except String (List (List ℚ)) :=
  if ¬ (mode = "iou" ∨ mode = "iof") then
    Except.error "InvalidArgument: mode must be iou or iof"
  else if is_aligned ∧ bboxes1.length ≠ bboxes2.length then
    Except.error "InvalidArgument: aligned sets must have equal length"
  else if bboxes1.length * bboxes2.length = 0 then
    Except.ok (if is_aligned then
        List.replicate bboxes1.length (List.replicate 1 0)
      else
        List.replicate bboxes1.length (List.replicate bboxes2.length 0))
  else if is_aligned then
    Except.ok (List.zipWith (fun a b => [pairScore mode a b]) bboxes1 bboxes2)
  else
    Except.ok (bboxes1.map fun a => bboxes2.map fun b => pairScore mode a b)

/-- Entry (i, j) of a bbox_overlaps result (0 when out of range or error). -/
def entry (r : Except String (List (List ℚ))) (i j : ℕ) : ℚ :=
  ((r.toOption.getD []).getD i []).getD j 0

/-- Python int(x): truncation toward zero. -/
def pyInt (q : ℚ) : ℤ :=
  if 0 ≤ q then ⌊q⌋ else ⌈q⌉

/-- An image modelled at shape level: h rows, w columns (3 channels
throughout, so the channel axis is not carried). -/
structure ImgShape where
  h : ℕ
  w : ℕ
deriving DecidableEq, Repr

/-- Shape model of OpenCV cv2.resize: its documented dsize argument is
(width, height), and the output array has dsize[1] rows and dsize[0]
columns. Pixel content (linear interpolation) is outside this model. -/
def cv2_resize (dsize : ℤ × ℤ) : ImgShape :=
  ImgShape.mk dsize.2.toNat dsize.1.toNat

/-- resize_ratio of the keepratio branch of img_preprocess2:
min(1.0 * w_target / w_org, 1.0 * h_target / h_org), with
target_shape = (h_target, w_target). (Name shortened from the source's
resize_ratio.) -/
def resize_scale (image : ImgShape) (target_shape : ℕ × ℕ) : ℚ :=
  min ((target_shape.2 : ℚ) / (image.w : ℚ)) ((target_shape.1 : ℚ) / (image.h : ℚ))

/-- resize_w = int(resize_ratio * w_org). -/
def resize_w (image : ImgShape) (target_shape : ℕ × ℕ) : ℤ :=
  pyInt (resize_scale image target_shape * (image.w : ℚ))

/-- resize_h = int(resize_ratio * h_org). -/
def resize_h (image : ImgShape) (target_shape : ℕ × ℕ) : ℤ :=
  pyInt (resize_scale image target_shape * (image.h : ℚ))

/-- dw = int((w_target - resize_w) / 2) (Python / is exact division here,
int truncates the quotient). -/
def dw (image : ImgShape) (target_shape : ℕ × ℕ) : ℤ :=
  pyInt (((target_shape.2 : ℚ) - (resize_w image target_shape : ℚ)) / 2)

/-- dh = int((h_target - resize_h) / 2). -/
def dh (image : ImgShape) (target_shape : ℕ × ℕ) : ℤ :=
  pyInt (((target_shape.1 : ℚ) - (resize_h image target_shape : ℚ)) / 2)

/-- img_preprocess2 from utils/util.py, at image-shape level with exact box
arithmetic. target_shape is (h_target, w_target).

keepratio=False branch: the code calls cv2.resize(image, target_shape), so
the tuple (h_target, w_target) is handed to cv2 as its dsize = (width,
height); boxes are scaled by ratio_w = w_target / w_org on x and
ratio_h = h_target / h_org on y. keepratio=True branch: the resized
image (shape given by cv2_resize (resize_w, resize_h)) is pasted into the
canvas image_paded of shape (h_target, w_target), which is the returned
image; boxes are scaled by resize_ratio and shifted by dw on x, dh on y.
The division of pixel values by 255 does not change shapes and is outside
the shape-level model. The second component is the returned bboxes array
(none when correct_box is false, as the code then returns only the image). -/
def img_preprocess2 (image : ImgShape) (bboxes : List Box)
    (target_shape : ℕ × ℕ) (correct_box keepratio : Bool) :
    ImgShape × Option (List Box) :=
  let h_target := target_shape.1
  let w_target := target_shape.2
  let h_org := image.h
  let w_org := image.w
  if ¬ keepratio then
    let ratio_w : ℚ := (w_target : ℚ) / (w_org : ℚ)
    let ratio_h : ℚ := (h_target : ℚ) / (h_org : ℚ)
    let out := cv2_resize ((h_target : ℤ), (w_target : ℤ))
    if correct_box then
      (out, some (bboxes.map fun b =>
        Box.mk (b.x1 * ratio_w) (b.y1 * ratio_h) (b.x2 * ratio_w) (b.y2 * ratio_h)))
    else (out, none)
  else
    let r := resize_scale image target_shape
    let dwv := dw image target_shape
    let dhv := dh image target_shape
    let out := ImgShape.mk h_target w_target
    if correct_box then
      (out, some (bboxes.map fun b =>
        Box.mk (b.x1 * r + (dwv : ℚ)) (b.y1 * r + (dhv : ℚ))
          (b.x2 * r + (dwv : ℚ)) (b.y2 * r + (dhv : ℚ))))
    else (out, none)

/-- The state of AverageMeter: fields avg, sum, count (avg is set by reset
and never read back by update or get_avg). -/
structure AverageMeter where
  avg : ℚ
  sum : ℚ
  count : ℚ
deriving DecidableEq, Repr

/-- AverageMeter.reset (also the state right after construction, since
init calls reset): avg = 0, sum = 0, count = 1. -/
def AverageMeter.reset : AverageMeter :=
  AverageMeter.mk 0 0 1

/-- AverageMeter.update(temp_sum, n): sum += temp_sum; count += n. In the
source n defaults to 1; the default is made explicit at call sites here. -/
def AverageMeter.update (m : AverageMeter) (temp_sum n : ℚ) : AverageMeter :=
  AverageMeter.mk m.avg (m.sum + temp_sum) (m.count + n)

/-- AverageMeter.get_avg(): sum / count. -/
def AverageMeter.get_avg (m : AverageMeter) : ℚ :=
  m.sum / m.count

/-- Python s.replace(old, new) for a nonempty old, on character lists:
scan left to right; where old is a prefix, emit new and skip old's length,
else keep one character. The Nat argument is fuel; with fuel = length of
the scanned list and old nonempty, every step consumes at least one
character, so the fuel never runs out before the list does. -/
def replaceGo (olds news : List Char) : ℕ → List Char → List Char
  | 0, l => l
  | _ + 1, [] => []
  | fuel + 1, c :: cs =>
    if olds.isPrefixOf (c :: cs) then
      news ++ replaceGo olds news fuel ((c :: cs).drop olds.length)
    else
      c :: replaceGo olds news fuel cs

/-- Python s.replace(olds, news) on strings (nonempty olds). -/
def pyReplace (olds news s : String) : String :=
  String.mk (replaceGo olds.toList news.toList s.toList.length s.toList)

/-- OrderedDict.update({k: v}) on an association list: if k is already a
key, the value at its existing position is overwritten; otherwise (k, v)
is appended at the end. -/
def odUpdate {α : Type} (l : List (String × α)) (k : String) (v : α) :
    List (String × α) :=
  if l.any (fun p => p.1 == k) then
    l.map (fun p => if p.1 = k then (k, v) else p)
  else l ++ [(k, v)]

/-- module2weight from utils/util.py: builds a new OrderedDict, inserting
each value under k.replace("module.", ""). -/
def module2weight {α : Type} (moduledict : List (String × α)) :
    List (String × α) :=
  moduledict.foldl (fun acc kv => odUpdate acc (pyReplace "module." "" kv.1) kv.2) []

end YoloUtil

namespace YoloUtil

/-- Sanity check against the docstring example of bbox_overlaps: the
(0, 0) entry for [0,0,10,10] vs [0,0,10,20] is 11 * 11 / (121 + 231 - 121)
= 11/21, matching the documented 0.5238. -/
theorem bbox_overlaps_docstring_example :
    entry (bbox_overlaps [Box.mk 0 0 10 10] [Box.mk 0 0 10 20] "iou" false)
      0 0 = 11 / 21 := by
  norm_num [entry, bbox_overlaps, pairScore, pairOverlap, area,
    Except.toOption, List.getD, Option.getD]

/-- Accumulation of sum and count over a run of update calls. -/
theorem foldl_update_sum_count (us : List (ℚ × ℚ)) (m : AverageMeter) :
    (us.foldl (fun a p => a.update p.1 p.2) m).sum =
        m.sum + (us.map Prod.fst).sum ∧
      (us.foldl (fun a p => a.update p.1 p.2) m).count =
        m.count + (us.map Prod.snd).sum := by
  induction us generalizing m with
  | nil => simp
  | cons p ps ih =>
    simpa [AverageMeter.update, add_assoc] using ih (m.update p.1 p.2)

/-- C9: AverageMeter stores count 1 and sum 0 after reset; update adds
temp_sum to the sum and n to the count; get_avg returns sum / count; after
reset followed by any run of updates, get_avg is the total of the
increments divided by 1 plus the total of the counts; and get_avg right
after reset is 0 (count is 1, so no division by zero). -/
theorem C9_averageMeter :
    AverageMeter.reset.count = 1 ∧ AverageMeter.reset.sum = 0 ∧
    (∀ m : AverageMeter, ∀ t n : ℚ,
      (m.update t n).sum = m.sum + t ∧ (m.update t n).count = m.count + n) ∧
    (∀ m : AverageMeter, m.get_avg = m.sum / m.count) ∧
    (∀ us : List (ℚ × ℚ),
      (us.foldl (fun a p => a.update p.1 p.2) AverageMeter.reset).get_avg =
        (us.map Prod.fst).sum / (1 + (us.map Prod.snd).sum)) ∧
    AverageMeter.reset.get_avg = 0 := by
  refine ⟨rfl, rfl, fun m t n => ⟨rfl, rfl⟩, fun m => rfl, fun us => ?_, by
    norm_num [AverageMeter.get_avg, AverageMeter.reset]⟩
  have h := foldl_update_sum_count us AverageMeter.reset
  simp only [AverageMeter.get_avg]
  rw [h.1, h.2]
  norm_num [AverageMeter.reset]

/-- C1: with keepratio=False the code passes target_shape = (h_target,
w_target) to cv2.resize as dsize, which cv2 reads as (width, height), so
the returned image has w_target rows and h_target columns — transposed
from the (h_target, w_target, 3) shape the claim (and the function's own
docstring) promises. Failing input: an image of shape (4, 6, 3) with
target_shape = (2, 3). -/
theorem C1_keepratio_false_shape_transposed :
    (img_preprocess2 (ImgShape.mk 4 6) [] (2, 3) false false).1 =
        ImgShape.mk 3 2 ∧
      ImgShape.mk 3 2 ≠ ImgShape.mk 2 3 := by
  exact ⟨rfl, by decide⟩

/-- C3: with keepratio=true and correct_box=true, every box is remapped as
coordinate * resize_ratio + offset (dw on x, dh on y, both truncated
integer offsets); and on the concrete instance of the claim (image of
height 50 and width 100, target (50, 50)) the ratio is 1/2, the resized
size is 50 x 25, dw = 0, dh = 12, and the box [10,10,20,20] maps to
[5,17,10,22]. -/
theorem C3_letterbox_box_remap :
    (∀ image bboxes target_shape,
      (img_preprocess2 image bboxes target_shape true true).2 =
        some (bboxes.map fun b =>
          Box.mk (b.x1 * resize_scale image target_shape +
              (dw image target_shape : ℚ))
            (b.y1 * resize_scale image target_shape +
              (dh image target_shape : ℚ))
            (b.x2 * resize_scale image target_shape +
              (dw image target_shape : ℚ))
            (b.y2 * resize_scale image target_shape +
              (dh image target_shape : ℚ)))) ∧
    resize_scale (ImgShape.mk 50 100) (50, 50) = 1 / 2 ∧
    resize_w (ImgShape.mk 50 100) (50, 50) = 50 ∧
    resize_h (ImgShape.mk 50 100) (50, 50) = 25 ∧
    dw (ImgShape.mk 50 100) (50, 50) = 0 ∧
    dh (ImgShape.mk 50 100) (50, 50) = 12 ∧
    (img_preprocess2 (ImgShape.mk 50 100) [Box.mk 10 10 20 20]
        (50, 50) true true).2 =
      some [Box.mk 5 17 10 22] := by
  refine ⟨fun image bboxes target_shape => by simp [img_preprocess2],
    by norm_num [resize_scale],
    by norm_num [resize_w, resize_scale, pyInt],
    by norm_num [resize_h, resize_scale, pyInt],
    by norm_num [dw, resize_w, resize_scale, pyInt],
    by norm_num [dh, resize_h, resize_scale, pyInt], ?_⟩
  norm_num [img_preprocess2, dw, dh, resize_w, resize_h, resize_scale, pyInt]

/-- C4: when either rectangle set is empty (and the contract preconditions
of bbox_overlaps hold: a recognized mode, and equal lengths when aligned),
the function returns, without error, a matrix with |set1| rows whose rows
have length 1 when aligned and |set2| otherwise; no intersection is
computed on this early-return path. -/
theorem C4_empty_input_shapes (A B : List Box) (mode : String) (al : Bool)
    (hmode : mode = "iou" ∨ mode = "iof")
    (hal : al = true → A.length = B.length)
    (hempty : A.length = 0 ∨ B.length = 0) :
    ∃ M, bbox_overlaps A B mode al = Except.ok M ∧
      M.length = A.length ∧
      ∀ row ∈ M, row.length = if al then 1 else B.length := by
  have hz : A.length * B.length = 0 := by
    rcases hempty with h | h <;> simp [h]
  have h2 : ¬ (al = true ∧ A.length ≠ B.length) := by
    rintro ⟨ha, hne⟩
    exact hne (hal ha)
  have heq : bbox_overlaps A B mode al =
      Except.ok (if al = true then
          List.replicate A.length (List.replicate 1 0)
        else List.replicate A.length (List.replicate B.length 0)) := by
    unfold bbox_overlaps
    rw [if_neg (not_not_intro hmode), if_neg h2, if_pos hz]
  refine ⟨_, heq, ?_, ?_⟩
  · cases al <;> simp
  · intro row hrow
    cases al
    · rw [if_neg (by simp)] at hrow
      rw [if_neg (by simp)]
      simp [List.eq_of_mem_replicate hrow]
    · rw [if_pos rfl] at hrow
      rw [if_pos rfl]
      simp [List.eq_of_mem_replicate hrow]

/-- Witness for C4 at the concrete input A = [], B = one box,
mode = "iou", unaligned. -/
theorem C4_empty_input_shapes_witness :
    ∃ M, bbox_overlaps [] [Box.mk 0 0 10 9] "iou" false = Except.ok M ∧
      M.length = 0 ∧ ∀ row ∈ M, row.length = 1 :=
  C4_empty_input_shapes [] [Box.mk 0 0 10 9] "iou" false (Or.inl rfl)
    (by decide) (Or.inl rfl)

/-- C6: bbox_overlaps rejects every mode other than "iou" and "iof",
rejects aligned calls on sets of different lengths, and succeeds whenever
the mode is recognized and the lengths agree when aligned. -/
theorem C6_invalid_argument_errors :
    (∀ (A B : List Box) (mode : String) (al : Bool),
      ¬ (mode = "iou" ∨ mode = "iof") →
        ∃ e, bbox_overlaps A B mode al = Except.error e) ∧
    (∀ (A B : List Box) (mode : String),
      A.length ≠ B.length →
        ∃ e, bbox_overlaps A B mode true = Except.error e) ∧
    (∀ (A B : List Box) (mode : String) (al : Bool),
      (mode = "iou" ∨ mode = "iof") → (al = true → A.length = B.length) →
        ∃ M, bbox_overlaps A B mode al = Except.ok M) := by
  refine ⟨fun A B mode al h => ⟨_, by unfold bbox_overlaps; rw [if_pos h]⟩,
    fun A B mode h => ?_, fun A B mode al hm hal => ?_⟩
  · by_cases hm : mode = "iou" ∨ mode = "iof"
    · exact ⟨_, by
        unfold bbox_overlaps
        rw [if_neg (not_not_intro hm), if_pos ⟨rfl, h⟩]⟩
    · exact ⟨_, by unfold bbox_overlaps; rw [if_pos hm]⟩
  · have h2 : ¬ (al = true ∧ A.length ≠ B.length) := by
      rintro ⟨ha, hne⟩
      exact hne (hal ha)
    unfold bbox_overlaps
    rw [if_neg (not_not_intro hm), if_neg h2]
    by_cases hz : A.length * B.length = 0
    · rw [if_pos hz]
      exact ⟨_, rfl⟩
    · rw [if_neg hz]
      cases al <;> simp

/-- Witness for C6: a rejected mode, a rejected aligned length mismatch,
and an accepted well-formed aligned call. -/
theorem C6_invalid_argument_errors_witness :
    (∃ e, bbox_overlaps [] [] "ios" false = Except.error e) ∧
    (∃ e, bbox_overlaps [Box.mk 0 0 1 1] [] "iou" true = Except.error e) ∧
    (∃ M, bbox_overlaps [Box.mk 0 0 1 1] [Box.mk 0 0 1 1] "iou" true =
      Except.ok M) :=
  ⟨C6_invalid_argument_errors.1 [] [] "ios" false (by decide),
    C6_invalid_argument_errors.2.1 [Box.mk 0 0 1 1] [] "iou" (by decide),
    C6_invalid_argument_errors.2.2 [Box.mk 0 0 1 1] [Box.mk 0 0 1 1] "iou"
      true (Or.inl rfl) (fun _ => rfl)⟩

/-- On nonempty unaligned input with a recognized mode, bbox_overlaps is
the full cross product of pairScore. -/
theorem bbox_overlaps_unaligned_eq (A B : List Box) (mode : String)
    (hm : mode = "iou" ∨ mode = "iof")
    (hA : A.length ≠ 0) (hB : B.length ≠ 0) :
    bbox_overlaps A B mode false =
      Except.ok (A.map fun a => B.map fun b => pairScore mode a b) := by
  unfold bbox_overlaps
  rw [if_neg (not_not_intro hm), if_neg (by simp),
    if_neg (by simp [Nat.mul_eq_zero, hA, hB]), if_neg (by simp)]

/-- Indexing the cross-product matrix. -/
theorem entry_ok_map_map (A B : List Box) (f : Box → Box → ℚ) (i j : ℕ)
    (hi : i < A.length) (hj : j < B.length) :
    entry (Except.ok (A.map fun a => B.map fun b => f a b)) i j =
      f (A.get ⟨i, hi⟩) (B.get ⟨j, hj⟩) := by
  simp [entry, Except.toOption, List.getD_eq_getElem?_getD,
    List.getElem?_eq_getElem, hi, hj, List.get_eq_getElem,
    List.getElem?_eq_getElem (by simpa using hi : i < (A.map fun a =>
      B.map fun b => f a b).length)]

/-- The clamped intersection term is symmetric in its two boxes. -/
theorem pairOverlap_comm (a b : Box) : pairOverlap a b = pairOverlap b a := by
  unfold pairOverlap
  rw [min_comm a.x2, max_comm a.x1, min_comm a.y2, max_comm a.y1]

/-- The iou entry is symmetric in its two boxes (exact arithmetic). -/
theorem pairScore_iou_comm (a b : Box) :
    pairScore "iou" a b = pairScore "iou" b a := by
  unfold pairScore
  rw [if_pos rfl, if_pos rfl, pairOverlap_comm a b, add_comm (area a) (area b)]

/-- C7: over sets of non-degenerate rectangles, the unaligned IoU matrix
is symmetric: entry (i, j) of overlaps(A, B) equals entry (j, i) of
overlaps(B, A), in exact arithmetic. -/
theorem C7_unaligned_iou_symmetric (A B : List Box) (i j : ℕ)
    (hA : ∀ b ∈ A, b.x1 ≤ b.x2 ∧ b.y1 ≤ b.y2)
    (hB : ∀ b ∈ B, b.x1 ≤ b.x2 ∧ b.y1 ≤ b.y2)
    (hi : i < A.length) (hj : j < B.length) :
    entry (bbox_overlaps A B "iou" false) i j =
      entry (bbox_overlaps B A "iou" false) j i := by
  rw [bbox_overlaps_unaligned_eq A B "iou" (Or.inl rfl)
        (by omega) (by omega),
    bbox_overlaps_unaligned_eq B A "iou" (Or.inl rfl)
        (by omega) (by omega),
    entry_ok_map_map A B _ i j hi hj, entry_ok_map_map B A _ j i hj hi,
    pairScore_iou_comm]

/-- Witness for C7 at two concrete non-degenerate singleton sets. -/
theorem C7_unaligned_iou_symmetric_witness :
    entry (bbox_overlaps [Box.mk 0 0 10 10] [Box.mk 5 5 20 20] "iou" false)
        0 0 =
      entry (bbox_overlaps [Box.mk 5 5 20 20] [Box.mk 0 0 10 10] "iou" false)
        0 0 :=
  C7_unaligned_iou_symmetric [Box.mk 0 0 10 10] [Box.mk 5 5 20 20] 0 0
    (by norm_num) (by norm_num) (by decide) (by decide)

/-- Counterexample to C5 as stated: the box (1, 0, 1/2, 10) is inverted
(x2 < x1), yet because of the +1 in the width term the intersection with
(0, 0, 10, 10) is not clamped to 0 and the iou entry is 1/22, not zero.
Only inversions by at least one unit clamp to zero. -/
theorem C5_counterexample_fractional_inversion :
    (Box.mk 1 0 (1 / 2) 10).x2 < (Box.mk 1 0 (1 / 2) 10).x1 ∧
    entry (bbox_overlaps [Box.mk 1 0 (1 / 2) 10] [Box.mk 0 0 10 10]
        "iou" false) 0 0 = 1 / 22 ∧
    (1 : ℚ) / 22 ≠ 0 := by
  refine ⟨by norm_num, ?_, by norm_num⟩
  norm_num [entry, bbox_overlaps, pairScore, pairOverlap, area,
    Except.toOption, List.getD, Option.getD]

/-- An inversion by at least one unit on either box forces the clamped
intersection to 0. -/
theorem pairOverlap_eq_zero_of_unit_inverted (a b : Box)
    (h : a.x2 + 1 ≤ a.x1 ∨ a.y2 + 1 ≤ a.y1 ∨
      b.x2 + 1 ≤ b.x1 ∨ b.y2 + 1 ≤ b.y1) :
    pairOverlap a b = 0 := by
  unfold pairOverlap
  have hxa := min_le_left a.x2 b.x2
  have hxb := min_le_right a.x2 b.x2
  have hya := min_le_left a.y2 b.y2
  have hyb := min_le_right a.y2 b.y2
  have hxc := le_max_left a.x1 b.x1
  have hxd := le_max_right a.x1 b.x1
  have hyc := le_max_left a.y1 b.y1
  have hyd := le_max_right a.y1 b.y1
  rcases h with h | h | h | h
  · rw [max_eq_left (by linarith : min a.x2 b.x2 - max a.x1 b.x1 + 1 ≤ 0),
      zero_mul]
  · rw [max_eq_left (by linarith : min a.y2 b.y2 - max a.y1 b.y1 + 1 ≤ 0),
      mul_zero]
  · rw [max_eq_left (by linarith : min a.x2 b.x2 - max a.x1 b.x1 + 1 ≤ 0),
      zero_mul]
  · rw [max_eq_left (by linarith : min a.y2 b.y2 - max a.y1 b.y1 + 1 ≤ 0),
      mul_zero]

/-- A zero intersection makes the entry zero in either mode (with the
rational convention 0 / 0 = 0 where the float code would produce NaN for
an exactly zero denominator). -/
theorem pairScore_eq_zero_of_overlap_zero (mode : String) (a b : Box)
    (h : pairOverlap a b = 0) : pairScore mode a b = 0 := by
  simp [pairScore, h]

/-- C5 amended: for every unaligned pair in which one of the two boxes is
inverted by at least one unit on some axis (x2 + 1 <= x1 or y2 + 1 <= y1),
bbox_overlaps succeeds and the corresponding entry is zero: the
intersection term is clamped to 0, and a zero numerator gives a zero
ratio (0 / 0 = 0 under the rational-division convention of the model). -/
theorem C5_amended_unit_inverted_zero (A B : List Box) (mode : String)
    (i j : ℕ) (hmode : mode = "iou" ∨ mode = "iof")
    (hi : i < A.length) (hj : j < B.length)
    (hinv : (A.get ⟨i, hi⟩).x2 + 1 ≤ (A.get ⟨i, hi⟩).x1 ∨
      (A.get ⟨i, hi⟩).y2 + 1 ≤ (A.get ⟨i, hi⟩).y1 ∨
      (B.get ⟨j, hj⟩).x2 + 1 ≤ (B.get ⟨j, hj⟩).x1 ∨
      (B.get ⟨j, hj⟩).y2 + 1 ≤ (B.get ⟨j, hj⟩).y1) :
    (∃ M, bbox_overlaps A B mode false = Except.ok M) ∧
      entry (bbox_overlaps A B mode false) i j = 0 := by
  have heq := bbox_overlaps_unaligned_eq A B mode hmode
    (by omega) (by omega)
  refine ⟨⟨_, heq⟩, ?_⟩
  rw [heq, entry_ok_map_map A B _ i j hi hj]
  exact pairScore_eq_zero_of_overlap_zero mode _ _
    (pairOverlap_eq_zero_of_unit_inverted _ _ hinv)

/-- Witness for the amended C5: the integer-inverted box (5, 0, 2, 10)
against (0, 0, 10, 10) gives a zero iou entry without error. -/
theorem C5_amended_unit_inverted_zero_witness :
    (∃ M, bbox_overlaps [Box.mk 5 0 2 10] [Box.mk 0 0 10 10] "iou" false =
      Except.ok M) ∧
    entry (bbox_overlaps [Box.mk 5 0 2 10] [Box.mk 0 0 10 10] "iou" false)
      0 0 = 0 :=
  C5_amended_unit_inverted_zero [Box.mk 5 0 2 10] [Box.mk 0 0 10 10] "iou"
    0 0 (Or.inl rfl) (by decide) (by decide) (Or.inl (by norm_num))

/-- Counterexample to C2 as stated: for an image of height 9 and width 10
letterboxed to target (100, 3), the resize ratio is 3/10, and the code
computes resize_h = int(2.7) = 2, whereas rounding 2.7 to the nearest
integer gives 3. -/
theorem C2_counterexample_truncation_not_round :
    resize_scale (ImgShape.mk 9 10) (100, 3) = 3 / 10 ∧
    resize_h (ImgShape.mk 9 10) (100, 3) = 2 ∧
    round (resize_scale (ImgShape.mk 9 10) (100, 3) *
      ((ImgShape.mk 9 10).h : ℚ)) = 3 := by
  refine ⟨by norm_num [resize_scale], ?_, ?_⟩
  · norm_num [resize_h, resize_scale, pyInt]
  · rw [round_eq]
    norm_num [resize_scale]

/-- C2 amended: keepratio=true computes the single uniform ratio
min(w_target / w_org, h_target / h_org) and resizes to width
int(ratio * w_org) and height int(ratio * h_org), truncating toward zero
(equivalently the floor, the products being nonnegative) — not rounding
to the nearest integer. -/
theorem C2_amended_resize_dims_truncate (image : ImgShape)
    (target_shape : ℕ × ℕ) (hh : 0 < image.h) (hw : 0 < image.w)
    (hth : 0 < target_shape.1) (htw : 0 < target_shape.2) :
    resize_w image target_shape =
        ⌊resize_scale image target_shape * (image.w : ℚ)⌋ ∧
      resize_h image target_shape =
        ⌊resize_scale image target_shape * (image.h : ℚ)⌋ := by
  have h0 : (0 : ℚ) ≤ resize_scale image target_shape :=
    le_min (div_nonneg (Nat.cast_nonneg _) (Nat.cast_nonneg _))
      (div_nonneg (Nat.cast_nonneg _) (Nat.cast_nonneg _))
  constructor
  · unfold resize_w pyInt
    rw [if_pos (mul_nonneg h0 (Nat.cast_nonneg _))]
  · unfold resize_h pyInt
    rw [if_pos (mul_nonneg h0 (Nat.cast_nonneg _))]

/-- Witness for the amended C2 at the counterexample input. -/
theorem C2_amended_resize_dims_truncate_witness :
    resize_w (ImgShape.mk 9 10) (100, 3) =
        ⌊resize_scale (ImgShape.mk 9 10) (100, 3) * (10 : ℚ)⌋ ∧
      resize_h (ImgShape.mk 9 10) (100, 3) =
        ⌊resize_scale (ImgShape.mk 9 10) (100, 3) * (9 : ℚ)⌋ :=
  C2_amended_resize_dims_truncate (ImgShape.mk 9 10) (100, 3)
    (by decide) (by decide) (by decide) (by decide)

/-- Bounds for one letterbox axis: with 0 <= r <= t / n, the truncated
size pyInt (r * n) and the truncated offset pyInt ((t - size) / 2) are
nonnegative and their sum stays within t. -/
theorem letterbox_axis_bounds (r : ℚ) (t n : ℕ) (hn : 0 < n)
    (h0 : 0 ≤ r) (hr : r ≤ (t : ℚ) / (n : ℚ)) :
    0 ≤ pyInt (((t : ℚ) - (pyInt (r * (n : ℚ)) : ℚ)) / 2) ∧
      pyInt (r * (n : ℚ)) +
        pyInt (((t : ℚ) - (pyInt (r * (n : ℚ)) : ℚ)) / 2) ≤ (t : ℤ) := by
  have hq0 : 0 ≤ r * (n : ℚ) := mul_nonneg h0 (Nat.cast_nonneg n)
  have hqt : r * (n : ℚ) ≤ (t : ℚ) := by
    have h := mul_le_mul_of_nonneg_right hr (Nat.cast_nonneg n)
    rwa [div_mul_cancel₀ _ (by exact_mod_cast hn.ne' : (n : ℚ) ≠ 0)] at h
  have hfl : pyInt (r * (n : ℚ)) = ⌊r * (n : ℚ)⌋ := if_pos hq0
  have h2 : pyInt (r * (n : ℚ)) ≤ (t : ℤ) := by
    rw [hfl]
    calc ⌊r * (n : ℚ)⌋ ≤ ⌊(t : ℚ)⌋ := Int.floor_le_floor hqt
    _ = (t : ℤ) := Int.floor_natCast t
  have h2q : (pyInt (r * (n : ℚ)) : ℚ) ≤ (t : ℚ) := by exact_mod_cast h2
  have hd0 : (0 : ℚ) ≤ ((t : ℚ) - (pyInt (r * (n : ℚ)) : ℚ)) / 2 := by
    linarith
  have hdfl : pyInt (((t : ℚ) - (pyInt (r * (n : ℚ)) : ℚ)) / 2) =
      ⌊((t : ℚ) - (pyInt (r * (n : ℚ)) : ℚ)) / 2⌋ := if_pos hd0
  constructor
  · rw [hdfl]
    exact Int.floor_nonneg.mpr hd0
  · rw [hdfl]
    have h3 : (⌊((t : ℚ) - (pyInt (r * (n : ℚ)) : ℚ)) / 2⌋ : ℚ) ≤
        (t : ℚ) - (pyInt (r * (n : ℚ)) : ℚ) := by
      have h4 := Int.floor_le (((t : ℚ) - (pyInt (r * (n : ℚ)) : ℚ)) / 2)
      linarith
    have h5 : ⌊((t : ℚ) - (pyInt (r * (n : ℚ)) : ℚ)) / 2⌋ ≤
        (t : ℤ) - pyInt (r * (n : ℚ)) := by exact_mod_cast h3
    omega

/-- C8: in the letterbox path on positive original and target dimensions,
the paste region lies inside the canvas: the offsets dw and dh are
nonnegative, resize_w + dw fits in w_target, and resize_h + dh fits in
h_target, so the paste slice never leaves the (h_target, w_target)
canvas. -/
theorem C8_paste_region_in_bounds (image : ImgShape) (target_shape : ℕ × ℕ)
    (hh : 0 < image.h) (hw : 0 < image.w)
    (hth : 0 < target_shape.1) (htw : 0 < target_shape.2) :
    0 ≤ dw image target_shape ∧ 0 ≤ dh image target_shape ∧
      resize_w image target_shape + dw image target_shape ≤
        (target_shape.2 : ℤ) ∧
      resize_h image target_shape + dh image target_shape ≤
        (target_shape.1 : ℤ) := by
  have h0 : (0 : ℚ) ≤ resize_scale image target_shape :=
    le_min (div_nonneg (Nat.cast_nonneg _) (Nat.cast_nonneg _))
      (div_nonneg (Nat.cast_nonneg _) (Nat.cast_nonneg _))
  have hx := letterbox_axis_bounds (resize_scale image target_shape)
    target_shape.2 image.w hw h0 (min_le_left _ _)
  have hy := letterbox_axis_bounds (resize_scale image target_shape)
    target_shape.1 image.h hh h0 (min_le_right _ _)
  exact ⟨hx.1, hy.1, hx.2, hy.2⟩

/-- Witness for C8 on the 100 x 50 image letterboxed to (50, 50). -/
theorem C8_paste_region_in_bounds_witness :
    0 ≤ dw (ImgShape.mk 50 100) (50, 50) ∧
      0 ≤ dh (ImgShape.mk 50 100) (50, 50) ∧
      resize_w (ImgShape.mk 50 100) (50, 50) +
        dw (ImgShape.mk 50 100) (50, 50) ≤ 50 ∧
      resize_h (ImgShape.mk 50 100) (50, 50) +
        dh (ImgShape.mk 50 100) (50, 50) ≤ 50 :=
  C8_paste_region_in_bounds (ImgShape.mk 50 100) (50, 50)
    (by decide) (by decide) (by decide) (by decide)

/-- Counterexample to C10 as stated: the key "a.module.b" does not start
with "module.", so under the claim it should be returned unchanged, but
str.replace removes the occurrence in the middle and the code returns key
"a.b". -/
theorem C10_counterexample_inner_occurrence :
    module2weight [("a.module.b", 0)] = [("a.b", 0)] ∧
      module2weight [("a.module.b", 0)] ≠ [("a.module.b", 0)] := by
  decide

/-- Generalized fold lemma behind module2weight: while the rewritten keys
are fresh, every OrderedDict.update is an append. -/
theorem module2weight_foldl {α : Type} (l : List (String × α))
    (acc : List (String × α))
    (hnodup : (l.map fun kv => pyReplace "module." "" kv.1).Nodup)
    (hdisj : ∀ kv ∈ l, pyReplace "module." "" kv.1 ∉ acc.map Prod.fst) :
    l.foldl (fun a kv => odUpdate a (pyReplace "module." "" kv.1) kv.2) acc =
      acc ++ l.map fun kv => (pyReplace "module." "" kv.1, kv.2) := by
  induction l generalizing acc with
  | nil => simp
  | cons kv rest ih =>
    have hk : pyReplace "module." "" kv.1 ∉ acc.map Prod.fst :=
      hdisj kv (List.mem_cons_self _ _)
    have hupd : odUpdate acc (pyReplace "module." "" kv.1) kv.2 =
        acc ++ [(pyReplace "module." "" kv.1, kv.2)] := by
      unfold odUpdate
      have hany : ¬ (acc.any
          (fun p => p.1 == pyReplace "module." "" kv.1) = true) := by
        simp only [List.any_eq_true, beq_iff_eq]
        rintro ⟨p, hp, hpk⟩
        exact hk (List.mem_map.mpr ⟨p, hp, hpk⟩)
      rw [if_neg hany]
    have hnodup2 : (rest.map fun kv => pyReplace "module." "" kv.1).Nodup :=
      (List.nodup_cons.mp (by simpa using hnodup)).2
    have hhead : pyReplace "module." "" kv.1 ∉
        rest.map fun kv => pyReplace "module." "" kv.1 :=
      (List.nodup_cons.mp (by simpa using hnodup)).1
    have hdisj2 : ∀ kv2 ∈ rest, pyReplace "module." "" kv2.1 ∉
        (acc ++ [(pyReplace "module." "" kv.1, kv.2)]).map Prod.fst := by
      intro kv2 hkv2
      simp only [List.map_append, List.mem_append, List.map_cons,
        List.map_nil, List.mem_singleton, not_or]
      refine ⟨hdisj kv2 (List.mem_cons_of_mem _ hkv2), ?_⟩
      intro hcontra
      exact hhead (by
        rw [← hcontra]
        exact List.mem_map.mpr ⟨kv2, hkv2, rfl⟩)
    calc (kv :: rest).foldl
          (fun a kv => odUpdate a (pyReplace "module." "" kv.1) kv.2) acc =
        rest.foldl (fun a kv => odUpdate a (pyReplace "module." "" kv.1) kv.2)
          (acc ++ [(pyReplace "module." "" kv.1, kv.2)]) := by
          rw [List.foldl_cons, hupd]
    _ = (acc ++ [(pyReplace "module." "" kv.1, kv.2)]) ++
          rest.map fun kv => (pyReplace "module." "" kv.1, kv.2) :=
        ih _ hnodup2 hdisj2
    _ = acc ++ (kv :: rest).map
          fun kv => (pyReplace "module." "" kv.1, kv.2) := by
        simp

/-- C10 amended: module2weight removes every occurrence of the substring
"module." from each key (Python str.replace semantics, not a strip of a
leading prefix only); when the rewritten keys are pairwise distinct it
returns exactly the input pairs with rewritten keys, the values unchanged
and the insertion order preserved. -/
theorem C10_amended_replace_all_occurrences {α : Type}
    (l : List (String × α))
    (hnodup : (l.map fun kv => pyReplace "module." "" kv.1).Nodup) :
    module2weight l = l.map fun kv => (pyReplace "module." "" kv.1, kv.2) := by
  have h := module2weight_foldl l [] hnodup (by simp)
  simpa [module2weight] using h

/-- Witness for the amended C10. -/
theorem C10_amended_replace_all_occurrences_witness :
    module2weight [("module.conv", 1), ("bn", 2)] =
      [("conv", 1), ("bn", 2)] := by
  rw [C10_amended_replace_all_occurrences
    [("module.conv", (1 : ℕ)), ("bn", 2)] (by decide)]
  decide

end YoloUtil
